import Mathlib

/-!
Verification of the web3_auth SIP authentication module.

The development shallowly embeds the C sources:
  * `src/web3_auth_standalone.c` (Keccak-256 engine, selector, ABI encoder),
  * `src/web3_auth_from_working.c` (same engine plus credential extraction,
    response parsing and the authorization comparison),
  * `src/web3_auth_fixed.c` (same engine plus the structured credential
    extractor `extract_auth_components`).

Machine integers are modelled as `Nat` with explicit masking where 64-bit
overflow matters (`rotl64`); C strings are `List Char`; byte buffers are
`List Nat` with each element a byte value.
-/

set_option maxRecDepth 1000000
set_option maxHeartbeats 4000000

namespace Web3Auth

/-! ## Keccak-256 engine

Embeds `keccak_f1600` and `keccak256` (identical in all four source files;
line references below are for `src/web3_auth_standalone.c`).
The 1600-bit state is represented the way the C code addresses it in
`keccak256`: as the 200-byte little-endian memory image (`state_bytes`),
converted to the 25-lane view exactly where `keccak_f1600` operates on it. -/

def mask64 : Nat := 2 ^ 64 - 1

/-- `rotl64` (standalone.c lines 62-64): 64-bit rotate left. -/
def rotl64 (x n : Nat) : Nat := ((x <<< n) ||| (x >>> (64 - n))) &&& mask64

/-- `keccak_round_constants` (standalone.c lines 32-41). -/
def keccak_round_constants : List Nat :=
  [0x0000000000000001, 0x0000000000008082, 0x800000000000808a,
   0x8000000080008000, 0x000000000000808b, 0x0000000080000001,
   0x8000000080008081, 0x8000000000008009, 0x000000000000008a,
   0x0000000000000088, 0x0000000080008009, 0x000000008000000a,
   0x000000008000808b, 0x800000000000008b, 0x8000000000008089,
   0x8000000000008003, 0x8000000000008002, 0x8000000000000080,
   0x000000000000800a, 0x800000008000000a, 0x8000000080008081,
   0x8000000000008080, 0x0000000080000001, 0x8000000080008008]

/-- `rho_offsets` (standalone.c lines 43-45). -/
def rho_offsets : List Nat :=
  [1, 3, 6, 10, 15, 21, 28, 36, 45, 55, 2, 14, 27, 41, 56, 8, 25, 43, 62, 18, 39, 61, 20, 44]

/-- `pi_offsets` (standalone.c lines 47-49). -/
def pi_offsets : List Nat :=
  [10, 7, 11, 17, 18, 3, 5, 16, 8, 21, 24, 4, 15, 23, 19, 13, 12, 2, 20, 14, 22, 9, 6, 1]

/-- Theta step of one round (standalone.c lines 69-80). -/
def theta (st : List Nat) : List Nat :=
  let C := (List.range 5).map (fun i =>
    st.getD i 0 ^^^ st.getD (i + 5) 0 ^^^ st.getD (i + 10) 0 ^^^
      st.getD (i + 15) 0 ^^^ st.getD (i + 20) 0)
  (List.range 25).map (fun k =>
    st.getD k 0 ^^^ (C.getD ((k % 5 + 4) % 5) 0 ^^^ rotl64 (C.getD ((k % 5 + 1) % 5) 0) 1))

/-- The sequential Rho+Pi loop (standalone.c lines 82-89): walks the zipped
`(pi_offsets, rho_offsets)` table carrying the running `current` lane. -/
def rhoPiLoop : List (Nat × Nat) → Nat → List Nat → List Nat
  | [], _, st => st
  | (j, r) :: rest, current, st => rhoPiLoop rest (st.getD j 0) (st.set j (rotl64 current r))

/-- Rho and Pi steps, seeded from lane 1 (standalone.c line 83). -/
def rhoPi (st : List Nat) : List Nat :=
  rhoPiLoop (pi_offsets.zip rho_offsets) (st.getD 1 0) st

/-- Chi step (standalone.c lines 91-100); 64-bit complement is XOR with the
all-ones mask. -/
def chi (st : List Nat) : List Nat :=
  (List.range 25).map (fun k =>
    let r := k / 5 * 5
    let i := k % 5
    st.getD (r + i) 0 ^^^
      ((mask64 ^^^ st.getD (r + (i + 1) % 5) 0) &&& st.getD (r + (i + 2) % 5) 0))

/-- One round: Theta, Rho+Pi, Chi, Iota (standalone.c lines 68-104). -/
def keccakRound (st : List Nat) (rc : Nat) : List Nat :=
  let st3 := chi (rhoPi (theta st))
  st3.set 0 (st3.getD 0 0 ^^^ rc)

/-- `keccak_f1600` (standalone.c lines 67-105): 24 rounds over the lane view. -/
def keccak_f1600 (st : List Nat) : List Nat :=
  keccak_round_constants.foldl keccakRound st

/-- Little-endian load of one 64-bit lane from the byte image. -/
def load64 (b : List Nat) (off : Nat) : Nat :=
  b.getD off 0 ||| (b.getD (off + 1) 0 <<< 8) ||| (b.getD (off + 2) 0 <<< 16) |||
    (b.getD (off + 3) 0 <<< 24) ||| (b.getD (off + 4) 0 <<< 32) |||
    (b.getD (off + 5) 0 <<< 40) ||| (b.getD (off + 6) 0 <<< 48) |||
    (b.getD (off + 7) 0 <<< 56)

/-- The 25-lane view of the 200-byte state image (the C cast
`(uint8_t *)state` read in the other direction, little-endian lanes). -/
def lanesOfBytes (b : List Nat) : List Nat :=
  (List.range 25).map (fun l => load64 b (8 * l))

/-- The 200-byte image of the 25-lane state (the C cast `(uint8_t *)state`). -/
def bytesOfLanes (st : List Nat) : List Nat :=
  (List.range 200).map (fun i => (st.getD (i / 8) 0 >>> (8 * (i % 8))) % 256)

/-- `keccak_f1600` acting on the byte image of the state. -/
def keccak_f1600_bytes (b : List Nat) : List Nat :=
  bytesOfLanes (keccak_f1600 (lanesOfBytes b))

/-- XOR a block of bytes into the front of the state image
(the absorb XOR loops of standalone.c lines 117-119 and 126-128). -/
def xorAt : List Nat → List Nat → List Nat
  | st, [] => st
  | [], _ :: _ => []
  | s :: st, b :: bs => (s ^^^ b) :: xorAt st bs

/-- The absorb while-loop of `keccak256` (standalone.c lines 116-123),
with explicit fuel: each iteration consumes 136 input bytes, so any fuel
of at least `input.length` iterations reaches the fixpoint. -/
def absorbLoop : Nat → List Nat → List Nat → List Nat × List Nat
  | 0, st, input => (st, input)
  | fuel + 1, st, input =>
    if 136 ≤ input.length then
      absorbLoop fuel (keccak_f1600_bytes (xorAt st (input.take 136))) (input.drop 136)
    else (st, input)

/-- `keccak256` (standalone.c lines 108-139): absorb full 136-byte blocks,
XOR in the remainder, apply the pad10*1 padding bytes `0x01` (at the
remainder length) and `0x80` (at offset 135), one final permutation, and
output the first 32 state bytes. -/
def keccak256 (input : List Nat) : List Nat :=
  let p := absorbLoop input.length (List.replicate 200 0) input
  let stF := xorAt p.1 p.2
  let st1 := stF.set p.2.length (stF.getD p.2.length 0 ^^^ 0x01)
  let st2 := st1.set 135 (st1.getD 135 0 ^^^ 0x80)
  (keccak_f1600_bytes st2).take 32

/-- Bytes of a text constant, as the C code hashes ASCII strings. -/
def stringBytes (s : String) : List Nat := s.toList.map Char.toNat

/-- The combined pad10*1 block: `0x01` at the remaining-input offset `m`,
`0x80` at offset 135, both XORs landing on the same byte when `m = 135`. -/
def padBlock (m : Nat) : List Nat :=
  (List.range 136).map (fun i => (if i = m then 0x01 else 0) ^^^ (if i = 135 then 0x80 else 0))

/-! ## Function selector and ABI encoder

Embeds `get_function_selector`, `pad_string_data` and
`encode_digest_hash_call`.  The selector code is identical in all variants.
`pad_string_data` differs observably between the variants:

* `src/web3_auth_from_working.c` (lines 239-265) writes the hex digits and
  then explicitly overwrites positions `len*2 .. padded_len*2 - 1` with `'0'`,
  so the produced C string is the hex data right-padded with zeros to
  `padded_len * 2` characters — embedded as `pad_string_data`;
* `src/web3_auth_standalone.c` (lines 157-179) and `src/web3_auth_fixed.c`
  (lines 201-223) memset the buffer with `'0'` first and then run the
  `sprintf` loop, whose terminating NUL lands at position `len*2`, so for a
  non-empty input the produced C string is only the `2*len` hex digits with
  the padding zeros cut off (for an empty input the loop never runs and the
  64 memset zeros survive) — embedded as `pad_string_data_std`. -/

/-- One lowercase hex digit, as produced by the `%x` conversions. -/
def hexDigit (n : Nat) : Char :=
  if n < 10 then Char.ofNat (48 + n) else Char.ofNat (87 + n)

/-- `%02x` of one byte value. -/
def byteHex (b : Nat) : List Char := [hexDigit (b / 16), hexDigit (b % 16)]

/-- The hex rendering of a byte sequence (the `sprintf` loops). -/
def hexOfBytes (s : List Nat) : List Char :=
  s.foldr (fun b acc => byteHex b ++ acc) []

/-- Character list of a text constant. -/
def stringChars (s : String) : List Char := s.toList

/-- `get_function_selector` (standalone.c lines 142-154): `"0x"` followed by
the `%02x` renderings of the first 4 bytes of the Keccak-256 hash. -/
def get_function_selector (sig : List Nat) : List Char :=
  '0' :: 'x' :: hexOfBytes ((keccak256 sig).take 4)

/-- The fixed signature hashed for the selector (standalone.c line 183). -/
def digestSignature : List Nat :=
  stringBytes "getDigestHash(string,string,string,string,string)"

/-- The padded length computed by `pad_string_data`:
`((len + 31) / 32) * 32`, replaced by 32 when zero. -/
def padded_len_of (len : Nat) : Nat :=
  let p := (len + 31) / 32 * 32
  if p = 0 then 32 else p

/-- `pad_string_data` of `src/web3_auth_from_working.c` (lines 239-265):
hex digits of the bytes, right-padded with `'0'` characters up to
`padded_len * 2`, returned together with `padded_len`. -/
def pad_string_data (s : List Nat) : List Char × Nat :=
  let pl := padded_len_of s.length
  (hexOfBytes s ++ List.replicate ((pl - s.length) * 2) '0', pl)

/-- `pad_string_data` of `src/web3_auth_standalone.c` (lines 157-179) and
`src/web3_auth_fixed.c`: the C-string value is truncated at the NUL written
by the last `sprintf`, i.e. the bare hex digits for non-empty input, and the
full memset block of zeros for empty input. -/
def pad_string_data_std (s : List Nat) : List Char × Nat :=
  let pl := padded_len_of s.length
  (if s.length = 0 then List.replicate (pl * 2) '0' else hexOfBytes s, pl)

/-- `%064lx`: exactly `k` lowercase hex digits of `n`, most significant
first, zero padded (auxiliary, `k` pending digits). -/
def hexWordAux : Nat → Nat → List Char
  | 0, _ => []
  | k + 1, n => hexWordAux k (n / 16) ++ [hexDigit (n % 16)]

/-- `%064lx` of a 64-bit value: 64 zero-padded lowercase hex digits. -/
def hexWord (n : Nat) : List Char := hexWordAux 64 n

/-- One `"%064lx%s"` tail group of the encoder: length word then padded data
(from_working variant). -/
def tailBlock (s : List Nat) : List Char :=
  hexWord s.length ++ (pad_string_data s).1

/-- One `"%064lx%s"` tail group, standalone/fixed variant. -/
def tailBlockStd (s : List Nat) : List Char :=
  hexWord s.length ++ (pad_string_data_std s).1

/-- `encode_digest_hash_call` of `src/web3_auth_from_working.c`
(lines 268-331): selector without `0x`, five offset words
(`0xA0`, then each previous plus `32 + padded_len`), then per string a
length word and the padded data. -/
def encode_digest_hash_call (s1 s2 s3 s4 s5 : List Nat) : List Char :=
  let o1 : Nat := 0xA0
  let o2 := o1 + 32 + (pad_string_data s1).2
  let o3 := o2 + 32 + (pad_string_data s2).2
  let o4 := o3 + 32 + (pad_string_data s3).2
  let o5 := o4 + 32 + (pad_string_data s4).2
  (get_function_selector digestSignature).drop 2 ++
    (hexWord o1 ++ (hexWord o2 ++ (hexWord o3 ++ (hexWord o4 ++ (hexWord o5 ++
      (tailBlock s1 ++ (tailBlock s2 ++ (tailBlock s3 ++
        (tailBlock s4 ++ tailBlock s5)))))))))

/-- `encode_digest_hash_call` of `src/web3_auth_standalone.c`
(lines 182-250) and `src/web3_auth_fixed.c`: identical layout, but the tail
data comes from the truncating `pad_string_data` (the offset words still use
the full `padded_len`). -/
def encode_digest_hash_call_std (s1 s2 s3 s4 s5 : List Nat) : List Char :=
  let o1 : Nat := 0xA0
  let o2 := o1 + 32 + (pad_string_data_std s1).2
  let o3 := o2 + 32 + (pad_string_data_std s2).2
  let o4 := o3 + 32 + (pad_string_data_std s3).2
  let o5 := o4 + 32 + (pad_string_data_std s4).2
  (get_function_selector digestSignature).drop 2 ++
    (hexWord o1 ++ (hexWord o2 ++ (hexWord o3 ++ (hexWord o4 ++ (hexWord o5 ++
      (tailBlockStd s1 ++ (tailBlockStd s2 ++ (tailBlockStd s3 ++
        (tailBlockStd s4 ++ tailBlockStd s5)))))))))

/-! ## Decoder (the reading discipline of the ABI head/tail layout) -/

/-- Value of one lowercase hex character. -/
def hexVal (c : Char) : Nat :=
  if 97 ≤ c.toNat then c.toNat - 87 else c.toNat - 48

/-- Number denoted by a big-endian hex digit string. -/
def hexToNat (l : List Char) : Nat :=
  l.foldl (fun acc c => acc * 16 + hexVal c) 0

/-- Read the 32-byte word that starts at character position `pos` of the
call-data hex string. -/
def readWordAt (cd : List Char) (pos : Nat) : Nat :=
  hexToNat ((cd.drop pos).take 64)

/-- Decode consecutive hex digit pairs back to bytes. -/
def bytesOfHex : List Char → List Nat
  | a :: b :: rest => (hexVal a * 16 + hexVal b) :: bytesOfHex rest
  | _ => []

/-- Decode call data per the ABI reading discipline: for each of the 5
parameters read the head offset word, at `selector + 2·offset` characters the
length word, then that many data bytes. -/
def decode_call_data (cd : List Char) : List (List Nat) :=
  (List.range 5).map (fun i =>
    let off := readWordAt cd (8 + 64 * i)
    let len := readWordAt cd (8 + 2 * off)
    bytesOfHex (((cd.drop (8 + 2 * off)).drop 64).take (2 * len)))

/-- Lowercase-hex character test (`0`-`9` or `a`-`f`). -/
def isLowerHexChar (c : Char) : Bool :=
  (48 ≤ c.toNat && c.toNat ≤ 57) || (97 ≤ c.toNat && c.toNat ≤ 102)

/-! ## Response parsing and the authorization comparison

Embeds `extract_result`, `strip_trailing_zeros` and the post-transport
branch structure of `verify_sip_auth` (`src/web3_auth_from_working.c`
lines 438-482) / `verify_blockchain_auth` (`src/web3_auth_fixed.c`
lines 494-536). -/

/-- The suffix of the text right after the first occurrence of `needle`
(C `strstr` followed by skipping the pattern); `none` when absent. -/
def afterFirst (needle : List Char) : List Char → Option (List Char)
  | [] => if needle.isEmpty then some [] else none
  | c :: rest =>
    if needle.isPrefixOf (c :: rest) then some ((c :: rest).drop needle.length)
    else afterFirst needle rest

/-- `strstr(hay, needle) != NULL`. -/
def containsSub (needle hay : List Char) : Bool := (afterFirst needle hay).isSome

/-- The characters before the first occurrence of `c`
(`strchr` plus the copy up to it); `none` when `c` never occurs. -/
def takeBeforeChar (c : Char) : List Char → Option (List Char)
  | [] => none
  | x :: xs => if x = c then some [] else (takeBeforeChar c xs).map (fun l => x :: l)

/-- `extract_result` (from_working.c lines 358-374): the quoted string value
following the literal pattern `"result":"`. -/
def extract_result (json : List Char) : Option (List Char) :=
  match afterFirst (stringChars "\"result\":\"") json with
  | none => none
  | some rest =>
    match takeBeforeChar '\"' rest with
    | none => none
    | some v => some v

/-- `strip_trailing_zeros` (from_working.c lines 377-389, identical in
fixed.c lines 334-346): empty for results shorter than 66 characters,
otherwise the 32 characters after the `0x` prefix, clamped to the output
buffer size. -/
def strip_trailing_zeros (hex_result : List Char) (stripped_size : Nat) : List Char :=
  if hex_result.length < 66 then []
  else
    let copy_len := if stripped_size ≤ 32 then stripped_size - 1 else 32
    (hex_result.drop 2).take copy_len

/-- The authorization decision together with the diagnostic branch the code
takes (each constructor corresponds to one distinct log branch; the numeric
return value collapses every non-authorized constructor to 403 / -1). -/
inductive AuthOutcome where
  | authorized
  | responseMismatch
  | userNotFound
  | remoteError
  | noResult
deriving DecidableEq

/-- The response-handling part of `verify_sip_auth` / `verify_blockchain_auth`:
an `"error"` key is tested first (with the `User not found` marker
distinguishing the unknown-user branch); only otherwise is the result
extracted, stripped to its first 32 hex characters and compared with the
client-supplied response. -/
def verify_response (body client : List Char) : AuthOutcome :=
  if containsSub (stringChars "\"error\"") body then
    if containsSub (stringChars "User not found") body then .userNotFound
    else .remoteError
  else
    match extract_result body with
    | some result_hex =>
      if strip_trailing_zeros result_hex 64 = client then .authorized
      else .responseMismatch
    | none => .noResult

/-! ## Credential extraction -/

/-- `extract_field` (from_working.c lines 170-188): locate `name="`, take up
to the closing quote, and silently clamp the copied length to
`output_size - 1`. -/
def extract_field (auth_header field_name : List Char) (output_size : Nat) :
    Option (List Char) :=
  match afterFirst (field_name ++ ['=', '\"']) auth_header with
  | none => none
  | some rest =>
    match takeBeforeChar '\"' rest with
    | none => none
    | some v =>
      some (v.take (if output_size ≤ v.length then output_size - 1 else v.length))

/-- The six extracted digest-auth fields (`sip_auth_t`). -/
structure SipAuth where
  username : List Nat
  realm : List Nat
  uri : List Nat
  nonce : List Nat
  response : List Nat
  method : List Nat
deriving DecidableEq

/-- The parsed digest credentials as the fixed variant reads them
(`cred->digest`); `none` models a NULL string pointer. -/
structure DigestCredentials where
  username : Option (List Nat)
  realm : Option (List Nat)
  uri : Option (List Nat)
  nonce : Option (List Nat)
  response : Option (List Nat)

/-- One field validation of `extract_auth_components`
(fixed.c lines 384-426): present and strictly shorter than
`MAX_FIELD_SIZE` (256) bytes. -/
def checkField : Option (List Nat) → Option (List Nat)
  | some v => if v.length < 256 then some v else none
  | none => none

/-- `extract_auth_components` (fixed.c lines 349-440), credential part:
the five required fields are validated in order and a failure is reported
with the log message naming the offending field; the request method is used
when it fits the bound and defaults to `"REGISTER"` otherwise. -/
def extract_auth_components (cred : DigestCredentials) (reqMethod : List Nat) :
    Except (List Char) SipAuth :=
  match checkField cred.username with
  | none => .error (stringChars "Invalid or missing username")
  | some u =>
  match checkField cred.realm with
  | none => .error (stringChars "Invalid or missing realm")
  | some r =>
  match checkField cred.uri with
  | none => .error (stringChars "Invalid or missing URI")
  | some ur =>
  match checkField cred.nonce with
  | none => .error (stringChars "Invalid or missing nonce")
  | some n =>
  match checkField cred.response with
  | none => .error (stringChars "Invalid or missing response")
  | some re =>
    .ok ⟨u, r, ur, n, re,
      if reqMethod.length < 256 then reqMethod else stringBytes "REGISTER"⟩

end Web3Auth

namespace Web3Auth

/-! ## Helper lemmas about list indexing and the absorb loop -/

theorem getD_set_self (l : List Nat) (j v : Nat) (h : j < l.length) :
    (l.set j v).getD j 0 = v := by
  rw [List.getD_eq_getElem?_getD, List.getElem?_set]
  simp [h]

theorem getD_set_other (l : List Nat) (i j v : Nat) (h : i ≠ j) :
    (l.set j v).getD i 0 = l.getD i 0 := by
  rw [List.getD_eq_getElem?_getD, List.getElem?_set, if_neg (fun hh => h hh.symm),
    ← List.getD_eq_getElem?_getD]

theorem xorAt_length (st p : List Nat) : (xorAt st p).length = st.length := by
  induction st generalizing p with
  | nil => cases p <;> simp [xorAt]
  | cons s st ih =>
    cases p with
    | nil => simp [xorAt]
    | cons b bs => simp [xorAt, ih]

theorem xorAt_getD (st p : List Nat) (hp : p.length ≤ st.length) (i : Nat) :
    (xorAt st p).getD i 0 = st.getD i 0 ^^^ p.getD i 0 := by
  induction st generalizing p i with
  | nil =>
    cases p with
    | nil => simp [xorAt]
    | cons b bs => simp at hp
  | cons s st ih =>
    cases p with
    | nil => simp [xorAt]
    | cons b bs =>
      cases i with
      | zero => simp [xorAt]
      | succ n => simpa [xorAt] using ih bs (by simpa using hp) n

theorem keccak_f1600_bytes_length (b : List Nat) : (keccak_f1600_bytes b).length = 200 := by
  simp [keccak_f1600_bytes, bytesOfLanes]

theorem absorbLoop_rest_lt (fuel : Nat) :
    ∀ st input : List Nat, input.length ≤ fuel →
      ((absorbLoop fuel st input).2).length < 136 := by
  induction fuel with
  | zero =>
    intro st input h
    simp only [absorbLoop]
    show input.length < 136
    omega
  | succ n ih =>
    intro st input h
    simp only [absorbLoop]
    split
    · apply ih
      rw [List.length_drop]
      omega
    · rename_i hlt
      show input.length < 136
      omega

theorem absorbLoop_fst_length (fuel : Nat) :
    ∀ st input : List Nat, st.length = 200 →
      ((absorbLoop fuel st input).1).length = 200 := by
  induction fuel with
  | zero =>
    intro st input h
    simp only [absorbLoop]
    exact h
  | succ n ih =>
    intro st input h
    simp only [absorbLoop]
    split
    · exact ih _ _ (keccak_f1600_bytes_length _)
    · exact h

theorem list_ext_getD (l₁ l₂ : List Nat) (hl : l₁.length = l₂.length)
    (h : ∀ i, l₁.getD i 0 = l₂.getD i 0) : l₁ = l₂ := by
  apply List.ext_getElem hl
  intro n h₁ h₂
  have hn := h n
  rwa [List.getD_eq_getElem?_getD, List.getD_eq_getElem?_getD,
    List.getElem?_eq_getElem h₁, List.getElem?_eq_getElem h₂] at hn

theorem padBlock_length (m : Nat) : (padBlock m).length = 136 := by
  simp [padBlock]

theorem padBlock_getD (m i : Nat) :
    (padBlock m).getD i 0 =
      if 136 ≤ i then 0
      else if i = 135 then (if m = 135 then 0x81 else 0x80)
      else if i = m then 0x01 else 0 := by
  rw [padBlock, List.getD_eq_getElem?_getD, List.getElem?_map]
  by_cases h : i < 136
  · rw [List.getElem?_range h]
    by_cases h135 : i = 135
    · subst h135
      by_cases hm : m = 135
      · subst hm
        decide
      · simp [hm, Ne.symm hm]
    · by_cases him : i = m
      · subst him
        simp [h135, show ¬136 ≤ i by omega]
      · simp [h135, him, show ¬136 ≤ i by omega]
  · rw [List.getElem?_eq_none (by rw [List.length_range]; omega)]
    simp [show 136 ≤ i by omega]

/-- The two padding writes of `keccak256` (standalone.c lines 131-132) equal
a single XOR of the `padBlock` vector into the state image. -/
theorem pad_sets_eq_xorAt (st : List Nat) (m : Nat) (hst : st.length = 200) (hm : m < 136) :
    ((st.set m (st.getD m 0 ^^^ 0x01)).set 135
      ((st.set m (st.getD m 0 ^^^ 0x01)).getD 135 0 ^^^ 0x80)) = xorAt st (padBlock m) := by
  apply list_ext_getD
  · simp [xorAt_length, List.length_set]
  · intro i
    rw [xorAt_getD st (padBlock m) (by rw [padBlock_length, hst]; omega) i, padBlock_getD]
    by_cases h136 : 136 ≤ i
    · rw [getD_set_other _ _ _ _ (by omega), getD_set_other _ _ _ _ (by omega)]
      simp [h136]
    · by_cases h135 : i = 135
      · subst h135
        by_cases hm135 : m = 135
        · subst hm135
          rw [getD_set_self _ _ _ (by rw [List.length_set, hst]; omega),
            getD_set_self _ _ _ (by rw [hst]; omega)]
          rw [Nat.xor_assoc]
          congr 1
        · rw [getD_set_self _ _ _ (by rw [List.length_set, hst]; omega),
            getD_set_other _ _ _ _ (Ne.symm hm135)]
          simp [h136, hm135]
      · rw [getD_set_other _ _ _ _ h135]
        by_cases him : i = m
        · subst him
          rw [getD_set_self _ _ _ (by rw [hst]; omega)]
          simp [h136, h135]
        · rw [getD_set_other _ _ _ _ him]
          simp [h136, h135, him]

/-! ## Hex rendering and parsing lemmas -/

theorem hexWordAux_length (k : Nat) : ∀ n, (hexWordAux k n).length = k := by
  induction k with
  | zero => intro n; rfl
  | succ k ih => intro n; simp [hexWordAux, ih]

theorem hexWord_length (n : Nat) : (hexWord n).length = 64 := hexWordAux_length 64 n

theorem hexVal_hexDigit (n : Nat) (h : n < 16) : hexVal (hexDigit n) = n := by
  interval_cases n <;> decide

theorem hexToNat_acc (l : List Char) : ∀ acc,
    l.foldl (fun a c => a * 16 + hexVal c) acc = acc * 16 ^ l.length + hexToNat l := by
  induction l with
  | nil => intro acc; simp [hexToNat]
  | cons c l ih =>
    intro acc
    have h2 : hexToNat (c :: l) = hexVal c * 16 ^ l.length + hexToNat l := by
      show l.foldl (fun a d => a * 16 + hexVal d) (0 * 16 + hexVal c) = _
      rw [ih]
      ring
    rw [List.foldl_cons, ih, h2, List.length_cons]
    ring

theorem hexToNat_snoc (l : List Char) (d : Char) :
    hexToNat (l ++ [d]) = hexToNat l * 16 + hexVal d := by
  rw [hexToNat, List.foldl_append]
  rfl

theorem hexToNat_hexWordAux (k : Nat) : ∀ n, hexToNat (hexWordAux k n) = n % 16 ^ k := by
  induction k with
  | zero => intro n; simp [hexWordAux, hexToNat, Nat.mod_one]
  | succ k ih =>
    intro n
    rw [hexWordAux, hexToNat_snoc, ih, hexVal_hexDigit _ (Nat.mod_lt _ (by norm_num)),
      pow_succ, Nat.mul_comm (16 ^ k) 16, Nat.mod_mul]
    ring

theorem hexToNat_hexWord (n : Nat) (h : n < 16 ^ 64) : hexToNat (hexWord n) = n := by
  rw [hexWord, hexToNat_hexWordAux, Nat.mod_eq_of_lt h]

theorem hexOfBytes_cons (b : Nat) (s : List Nat) :
    hexOfBytes (b :: s) = byteHex b ++ hexOfBytes s := rfl

theorem hexOfBytes_length (s : List Nat) : (hexOfBytes s).length = 2 * s.length := by
  induction s with
  | nil => rfl
  | cons b s ih =>
    rw [hexOfBytes_cons, List.length_append, ih, byteHex, List.length_cons]
    simp
    ring

theorem bytesOfHex_hexOfBytes (s : List Nat) (h : ∀ b ∈ s, b < 256) (r : List Char) :
    bytesOfHex (hexOfBytes s ++ r) = s ++ bytesOfHex r := by
  induction s with
  | nil => rfl
  | cons b s ih =>
    have hb : b < 256 := h b (by simp)
    rw [hexOfBytes_cons]
    show bytesOfHex (hexDigit (b / 16) :: hexDigit (b % 16) :: (hexOfBytes s ++ r)) = _
    rw [bytesOfHex, hexVal_hexDigit _ (by omega), hexVal_hexDigit _ (by omega),
      ih (fun x hx => h x (by simp [hx]))]
    have : b / 16 * 16 + b % 16 = b := by omega
    rw [this]
    rfl

/-! ## Padding and layout lemmas -/

theorem len_le_padded (len : Nat) : len ≤ padded_len_of len := by
  simp only [padded_len_of]
  split <;> omega

theorem padded_le_len_add (len : Nat) : padded_len_of len ≤ len + 32 := by
  simp only [padded_len_of]
  split <;> omega

theorem pad_std_snd (s : List Nat) : (pad_string_data_std s).2 = padded_len_of s.length := rfl

theorem pad_w_snd (s : List Nat) : (pad_string_data s).2 = padded_len_of s.length := rfl

theorem pad_w_fst_length (s : List Nat) :
    (pad_string_data s).1.length = 2 * padded_len_of s.length := by
  simp only [pad_string_data]
  rw [List.length_append, hexOfBytes_length, List.length_replicate]
  have := len_le_padded s.length
  omega

theorem keccak256_length (input : List Nat) : (keccak256 input).length = 32 := by
  simp only [keccak256]
  rw [List.length_take, keccak_f1600_bytes_length]
  omega

theorem selector_length (sig : List Nat) : (get_function_selector sig).length = 10 := by
  rw [get_function_selector]
  simp [hexOfBytes_length, List.length_take, keccak256_length]

theorem sel8_length : ((get_function_selector digestSignature).drop 2).length = 8 := by
  simp [selector_length]

theorem drop_append_len (a b : List Char) (n : Nat) (h : a.length = n) :
    (a ++ b).drop n = b := by
  subst h
  exact List.drop_left a b

theorem drop_append_add (a b : List Char) (n m : Nat) (h : a.length = n) :
    (a ++ b).drop (n + m) = b.drop m := by
  subst h
  exact List.drop_append m

theorem take_append_len (a b : List Char) (n : Nat) (h : a.length = n) :
    (a ++ b).take n = a := by
  subst h
  exact List.take_left a b

theorem readWordAt_skip (a rest : List Char) (k p : Nat) (hk : a.length = k) :
    readWordAt (a ++ rest) (k + p) = readWordAt rest p := by
  rw [readWordAt, readWordAt, drop_append_add _ _ _ _ hk]

theorem readWordAt_zero (n : Nat) (rest : List Char) (hn : n < 16 ^ 64) :
    readWordAt (hexWord n ++ rest) 0 = n := by
  rw [readWordAt, List.drop_zero, take_append_len _ _ _ (hexWord_length n),
    hexToNat_hexWord n hn]

theorem readWordAt_here (pre : List Char) (n : Nat) (rest : List Char) (p : Nat)
    (hp : pre.length = p) (hn : n < 16 ^ 64) :
    readWordAt (pre ++ (hexWord n ++ rest)) p = n := by
  rw [readWordAt, drop_append_len _ _ _ hp, take_append_len _ _ _ (hexWord_length n),
    hexToNat_hexWord n hn]

/-- The Keccak byte image only holds byte values. -/
theorem keccak256_bytes_lt (input : List Nat) : ∀ b ∈ keccak256 input, b < 256 := by
  intro b hb
  have hb2 : b ∈ keccak_f1600_bytes _ := List.take_subset _ _ (by simpa [keccak256] using hb)
  rw [keccak_f1600_bytes, bytesOfLanes] at hb2
  obtain ⟨i, hi, rfl⟩ := List.mem_map.mp hb2
  exact Nat.mod_lt _ (by norm_num)

theorem isLowerHexChar_hexDigit (n : Nat) (h : n < 16) :
    isLowerHexChar (hexDigit n) = true := by
  interval_cases n <;> decide

theorem hexOfBytes_chars (s : List Nat) (h : ∀ b ∈ s, b < 256) :
    ∀ c ∈ hexOfBytes s, isLowerHexChar c = true := by
  induction s with
  | nil => intro c hc; simp [hexOfBytes] at hc
  | cons b s ih =>
    intro c hc
    have hb : b < 256 := h b (by simp)
    rw [hexOfBytes_cons, byteHex] at hc
    rcases List.mem_append.mp hc with h1 | h2
    · rcases List.mem_pair.mp h1 with rfl | rfl
      · exact isLowerHexChar_hexDigit _ (by omega)
      · exact isLowerHexChar_hexDigit _ (by omega)
    · exact ih (fun x hx => h x (by simp [hx])) c h2

/-! ## Claims C3 and C4 -/

/-- C3: `keccak256` applied to the empty byte string and to the three bytes
"abc" yields the published Keccak-256 reference digests for the original
(pad10*1, non-SHA3) padding variant. -/
theorem keccak256_reference_digests :
    keccak256 (stringBytes "") =
      [0xc5, 0xd2, 0x46, 0x01, 0x86, 0xf7, 0x23, 0x3c, 0x92, 0x7e, 0x7d, 0xb2,
       0xdc, 0xc7, 0x03, 0xc0, 0xe5, 0x00, 0xb6, 0x53, 0xca, 0x82, 0x27, 0x3b,
       0x7b, 0xfa, 0xd8, 0x04, 0x5d, 0x85, 0xa4, 0x70] ∧
    keccak256 (stringBytes "abc") =
      [0x4e, 0x03, 0x65, 0x7a, 0xea, 0x45, 0xa9, 0x4f, 0xc7, 0xd4, 0x7b, 0xa8,
       0x26, 0xc8, 0xd6, 0x67, 0xc0, 0xd1, 0xe6, 0xe3, 0x3a, 0x64, 0xa0, 0x36,
       0xec, 0x44, 0xf5, 0x8f, 0xa1, 0x2d, 0x6c, 0x45] := by
  constructor <;> decide

/-- C4: for every input, the absorb loop leaves fewer than 136 bytes; the
padding XORs `0x01` into the state byte at the remaining-length offset and
`0x80` into the byte at offset 135 (a single combined `padBlock` vector whose
byte at 135 is `0x81` exactly when both offsets coincide at `m = 135`), and
exactly one final permutation is applied before the first 32 state bytes are
output. -/
theorem keccak256_padding_shape (input : List Nat) :
    ((absorbLoop input.length (List.replicate 200 0) input).2).length < 136 ∧
    keccak256 input =
      (keccak_f1600_bytes
        (xorAt
          (xorAt (absorbLoop input.length (List.replicate 200 0) input).1
            (absorbLoop input.length (List.replicate 200 0) input).2)
          (padBlock (absorbLoop input.length (List.replicate 200 0) input).2.length))).take 32 ∧
    (∀ i, (padBlock (absorbLoop input.length (List.replicate 200 0) input).2.length).getD i 0 =
      if 136 ≤ i then 0
      else if i = 135 then
        (if (absorbLoop input.length (List.replicate 200 0) input).2.length = 135
         then 0x81 else 0x80)
      else if i = (absorbLoop input.length (List.replicate 200 0) input).2.length
      then 0x01 else 0) := by
  have hrest := absorbLoop_rest_lt input.length (List.replicate 200 0) input le_rfl
  have hfst := absorbLoop_fst_length input.length (List.replicate 200 0) input (by simp)
  refine ⟨hrest, ?_, fun i => padBlock_getD _ i⟩
  simp only [keccak256]
  rw [pad_sets_eq_xorAt _ _ (by rw [xorAt_length]; exact hfst) hrest]

/-! ## Claims C5, C6, C7 -/

/-- C5: for every signature, the selector returned by
`get_function_selector` is exactly `0x` followed by the 8 lowercase hex
characters of the first 4 bytes of `keccak256` of the signature bytes
(being a total function of the signature, it is deterministic). -/
theorem get_function_selector_spec (sig : List Nat) :
    get_function_selector sig = '0' :: 'x' :: hexOfBytes ((keccak256 sig).take 4) ∧
    (get_function_selector sig).length = 10 ∧
    ∀ c ∈ (get_function_selector sig).drop 2, isLowerHexChar c = true := by
  refine ⟨rfl, selector_length sig, ?_⟩
  intro c hc
  have hc2 : c ∈ hexOfBytes ((keccak256 sig).take 4) := hc
  exact hexOfBytes_chars _ (fun b hb => keccak256_bytes_lt sig b (List.take_subset _ _ hb)) c hc2

/-- C7: an empty string still contributes a full tail group: a 64-hex-digit
length word of value 0 followed by one entire all-zero 32-byte block
(`padded_len` 32, i.e. 64 further `'0'` characters — never zero bytes of
padding), as placed in the CallData produced by `encode_digest_hash_call`
(standalone/fixed variant, shown here with the empty string in the first
slot at its tail position 328). -/
theorem encode_empty_string_tail (s2 s3 s4 s5 : List Nat) :
    (pad_string_data_std []).2 = 32 ∧
    tailBlockStd [] = hexWord 0 ++ List.replicate 64 '0' ∧
    (tailBlockStd []).length = 128 ∧
    ((encode_digest_hash_call_std [] s2 s3 s4 s5).drop 328).take 128 =
      hexWord 0 ++ List.replicate 64 '0' ∧
    readWordAt (encode_digest_hash_call_std [] s2 s3 s4 s5) 328 = 0 := by
  have hpad : (pad_string_data_std []).1 = List.replicate 64 '0' := rfl
  have htail : tailBlockStd [] = hexWord 0 ++ List.replicate 64 '0' := by
    show hexWord 0 ++ (pad_string_data_std []).1 = _
    rw [hpad]
  have hlen128 : (tailBlockStd []).length = 128 := by
    rw [htail, List.length_append, hexWord_length, List.length_replicate]
  have hdrop : (encode_digest_hash_call_std [] s2 s3 s4 s5).drop 328 =
      tailBlockStd [] ++ (tailBlockStd s2 ++ (tailBlockStd s3 ++
        (tailBlockStd s4 ++ tailBlockStd s5))) := by
    simp only [encode_digest_hash_call_std]
    rw [show (328 : Nat) = 8 + 320 from rfl, drop_append_add _ _ _ _ sel8_length,
      show (320 : Nat) = 64 + 256 from rfl, drop_append_add _ _ _ _ (hexWord_length _),
      show (256 : Nat) = 64 + 192 from rfl, drop_append_add _ _ _ _ (hexWord_length _),
      show (192 : Nat) = 64 + 128 from rfl, drop_append_add _ _ _ _ (hexWord_length _),
      show (128 : Nat) = 64 + 64 from rfl, drop_append_add _ _ _ _ (hexWord_length _),
      drop_append_len _ _ _ (hexWord_length _)]
  refine ⟨rfl, htail, hlen128, ?_, ?_⟩
  · rw [hdrop, take_append_len _ _ _ hlen128, htail]
  · rw [readWordAt, hdrop, htail, List.append_assoc,
      take_append_len _ _ _ (hexWord_length 0), hexToNat_hexWord 0 (by norm_num)]

/-- C6: in the CallData produced by `encode_digest_hash_call`
(standalone/fixed variant; the head layout is identical in all variants),
the first head word is 160 and each subsequent head word exceeds the
previous one by `32 + padded_len` of the previous string, where the padded
length is the byte length rounded up to a multiple of 32 and the padded
length of the empty string is 32. -/
theorem encode_head_offsets (s1 s2 s3 s4 s5 : List Nat)
    (h1 : s1.length < 2 ^ 32) (h2 : s2.length < 2 ^ 32)
    (h3 : s3.length < 2 ^ 32) (h4 : s4.length < 2 ^ 32) :
    readWordAt (encode_digest_hash_call_std s1 s2 s3 s4 s5) 8 = 160 ∧
    readWordAt (encode_digest_hash_call_std s1 s2 s3 s4 s5) 72 -
      readWordAt (encode_digest_hash_call_std s1 s2 s3 s4 s5) 8 =
        32 + padded_len_of s1.length ∧
    readWordAt (encode_digest_hash_call_std s1 s2 s3 s4 s5) 136 -
      readWordAt (encode_digest_hash_call_std s1 s2 s3 s4 s5) 72 =
        32 + padded_len_of s2.length ∧
    readWordAt (encode_digest_hash_call_std s1 s2 s3 s4 s5) 200 -
      readWordAt (encode_digest_hash_call_std s1 s2 s3 s4 s5) 136 =
        32 + padded_len_of s3.length ∧
    readWordAt (encode_digest_hash_call_std s1 s2 s3 s4 s5) 264 -
      readWordAt (encode_digest_hash_call_std s1 s2 s3 s4 s5) 200 =
        32 + padded_len_of s4.length ∧
    padded_len_of 0 = 32 ∧
    (∀ n, padded_len_of n % 32 = 0 ∧ n ≤ padded_len_of n ∧
      (0 < n → padded_len_of n < n + 32)) := by
  have b1 := padded_le_len_add s1.length
  have b2 := padded_le_len_add s2.length
  have b3 := padded_le_len_add s3.length
  have b4 := padded_le_len_add s4.length
  have w1 : readWordAt (encode_digest_hash_call_std s1 s2 s3 s4 s5) 8 = 160 := by
    simp only [encode_digest_hash_call_std]
    exact readWordAt_here _ _ _ _ sel8_length (by norm_num)
  have w2 : readWordAt (encode_digest_hash_call_std s1 s2 s3 s4 s5) 72 =
      160 + 32 + padded_len_of s1.length := by
    simp only [encode_digest_hash_call_std, pad_std_snd]
    rw [readWordAt, show (72 : Nat) = 8 + 64 from rfl, drop_append_add _ _ _ _ sel8_length,
      drop_append_len _ _ _ (hexWord_length _),
      take_append_len _ _ _ (hexWord_length _),
      hexToNat_hexWord _ (by omega)]
  have w3 : readWordAt (encode_digest_hash_call_std s1 s2 s3 s4 s5) 136 =
      160 + 32 + padded_len_of s1.length + 32 + padded_len_of s2.length := by
    simp only [encode_digest_hash_call_std, pad_std_snd]
    rw [readWordAt, show (136 : Nat) = 8 + 128 from rfl, drop_append_add _ _ _ _ sel8_length,
      show (128 : Nat) = 64 + 64 from rfl, drop_append_add _ _ _ _ (hexWord_length _),
      drop_append_len _ _ _ (hexWord_length _),
      take_append_len _ _ _ (hexWord_length _),
      hexToNat_hexWord _ (by omega)]
  have w4 : readWordAt (encode_digest_hash_call_std s1 s2 s3 s4 s5) 200 =
      160 + 32 + padded_len_of s1.length + 32 + padded_len_of s2.length +
        32 + padded_len_of s3.length := by
    simp only [encode_digest_hash_call_std, pad_std_snd]
    rw [readWordAt, show (200 : Nat) = 8 + 192 from rfl, drop_append_add _ _ _ _ sel8_length,
      show (192 : Nat) = 64 + 128 from rfl, drop_append_add _ _ _ _ (hexWord_length _),
      show (128 : Nat) = 64 + 64 from rfl, drop_append_add _ _ _ _ (hexWord_length _),
      drop_append_len _ _ _ (hexWord_length _),
      take_append_len _ _ _ (hexWord_length _),
      hexToNat_hexWord _ (by omega)]
  have w5 : readWordAt (encode_digest_hash_call_std s1 s2 s3 s4 s5) 264 =
      160 + 32 + padded_len_of s1.length + 32 + padded_len_of s2.length +
        32 + padded_len_of s3.length + 32 + padded_len_of s4.length := by
    simp only [encode_digest_hash_call_std, pad_std_snd]
    rw [readWordAt, show (264 : Nat) = 8 + 256 from rfl, drop_append_add _ _ _ _ sel8_length,
      show (256 : Nat) = 64 + 192 from rfl, drop_append_add _ _ _ _ (hexWord_length _),
      show (192 : Nat) = 64 + 128 from rfl, drop_append_add _ _ _ _ (hexWord_length _),
      show (128 : Nat) = 64 + 64 from rfl, drop_append_add _ _ _ _ (hexWord_length _),
      drop_append_len _ _ _ (hexWord_length _),
      take_append_len _ _ _ (hexWord_length _),
      hexToNat_hexWord _ (by omega)]
  refine ⟨w1, ?_, ?_, ?_, ?_, rfl, ?_⟩
  · rw [w1, w2]; omega
  · rw [w2, w3]; omega
  · rw [w3, w4]; omega
  · rw [w4, w5]; omega
  · intro n
    simp only [padded_len_of]
    refine ⟨?_, ?_, ?_⟩ <;> (intros; split <;> omega)

/-- Witness for C6 at the five one-byte strings "a" "b" "c" "d" "e". -/
theorem encode_head_offsets_witness :
    readWordAt (encode_digest_hash_call_std [97] [98] [99] [100] [101]) 8 = 160 ∧
    readWordAt (encode_digest_hash_call_std [97] [98] [99] [100] [101]) 72 -
      readWordAt (encode_digest_hash_call_std [97] [98] [99] [100] [101]) 8 =
        32 + padded_len_of 1 ∧
    readWordAt (encode_digest_hash_call_std [97] [98] [99] [100] [101]) 136 -
      readWordAt (encode_digest_hash_call_std [97] [98] [99] [100] [101]) 72 =
        32 + padded_len_of 1 ∧
    readWordAt (encode_digest_hash_call_std [97] [98] [99] [100] [101]) 200 -
      readWordAt (encode_digest_hash_call_std [97] [98] [99] [100] [101]) 136 =
        32 + padded_len_of 1 ∧
    readWordAt (encode_digest_hash_call_std [97] [98] [99] [100] [101]) 264 -
      readWordAt (encode_digest_hash_call_std [97] [98] [99] [100] [101]) 200 =
        32 + padded_len_of 1 ∧
    padded_len_of 0 = 32 ∧
    (∀ n, padded_len_of n % 32 = 0 ∧ n ≤ padded_len_of n ∧
      (0 < n → padded_len_of n < n + 32)) :=
  encode_head_offsets [97] [98] [99] [100] [101]
    (by norm_num) (by norm_num) (by norm_num) (by norm_num)

/-! ## Claims C1, C2, C8, C9, C10 -/

/-- When no error key is present and a result was extracted, the decision is
exactly the comparison of the stripped result with the client response. -/
theorem verify_response_result (body client r : List Char)
    (herr : containsSub (stringChars "\"error\"") body = false)
    (hres : extract_result body = some r) :
    verify_response body client =
      if strip_trailing_zeros r 64 = client then .authorized
      else .responseMismatch := by
  rw [verify_response, if_neg (by simp [herr]), hres]

/-- C1: for every remote result consisting of `0x` followed by at least 64
characters, the expected response is exactly the 32 characters after the
`0x` prefix, and the attempt is authorized iff the client-supplied response
equals that value, otherwise it is the response-mismatch rejection. -/
theorem verify_response_compare (body client rest : List Char)
    (herr : containsSub (stringChars "\"error\"") body = false)
    (hres : extract_result body = some ('0' :: 'x' :: rest))
    (hlen : 64 ≤ rest.length) :
    strip_trailing_zeros ('0' :: 'x' :: rest) 64 = rest.take 32 ∧
    (verify_response body client = .authorized ↔ client = rest.take 32) ∧
    (client ≠ rest.take 32 → verify_response body client = .responseMismatch) := by
  have hstrip : strip_trailing_zeros ('0' :: 'x' :: rest) 64 = rest.take 32 := by
    rw [strip_trailing_zeros, if_neg (by simp only [List.length_cons]; omega)]
    rfl
  refine ⟨hstrip, ?_, ?_⟩
  · rw [verify_response_result body client _ herr hres, hstrip]
    by_cases hc : rest.take 32 = client
    · subst hc
      simp
    · rw [if_neg hc]
      constructor
      · intro h
        exact absurd h (by decide)
      · intro hcc
        exact absurd hcc.symm hc
  · intro hne
    rw [verify_response_result body client _ herr hres, hstrip,
      if_neg (fun hh => hne hh.symm)]

/-- Witness for C1: result `0x` + `deadbeef…` (32 hex) + 32 zeros, client
response equal to the first 32 characters. -/
theorem verify_response_compare_witness :
    strip_trailing_zeros
      ('0' :: 'x' :: stringChars
        "deadbeefdeadbeefdeadbeefdeadbeef00000000000000000000000000000000") 64 =
      (stringChars
        "deadbeefdeadbeefdeadbeefdeadbeef00000000000000000000000000000000").take 32 ∧
    (verify_response
        (stringChars
          "\"result\":\"0xdeadbeefdeadbeefdeadbeefdeadbeef00000000000000000000000000000000\"")
        (stringChars "deadbeefdeadbeefdeadbeefdeadbeef") = .authorized ↔
      stringChars "deadbeefdeadbeefdeadbeefdeadbeef" =
        (stringChars
          "deadbeefdeadbeefdeadbeefdeadbeef00000000000000000000000000000000").take 32) ∧
    (stringChars "deadbeefdeadbeefdeadbeefdeadbeef" ≠
        (stringChars
          "deadbeefdeadbeefdeadbeefdeadbeef00000000000000000000000000000000").take 32 →
      verify_response
        (stringChars
          "\"result\":\"0xdeadbeefdeadbeefdeadbeefdeadbeef00000000000000000000000000000000\"")
        (stringChars "deadbeefdeadbeefdeadbeefdeadbeef") = .responseMismatch) :=
  verify_response_compare
    (stringChars
      "\"result\":\"0xdeadbeefdeadbeefdeadbeefdeadbeef00000000000000000000000000000000\"")
    (stringChars "deadbeefdeadbeefdeadbeefdeadbeef")
    (stringChars "deadbeefdeadbeefdeadbeefdeadbeef00000000000000000000000000000000")
    (by decide) (by decide) (by decide)

/-- C2: for every extracted result shorter than 66 characters,
`strip_trailing_zeros` produces the empty string, so the comparison
authorizes exactly when the client-supplied response is itself empty. -/
theorem strip_short_result_empty (body client result : List Char)
    (herr : containsSub (stringChars "\"error\"") body = false)
    (hres : extract_result body = some result)
    (hlen : result.length < 66) :
    strip_trailing_zeros result 64 = [] ∧
    (verify_response body client = .authorized ↔ client = []) := by
  have hstrip : strip_trailing_zeros result 64 = [] := by
    rw [strip_trailing_zeros, if_pos hlen]
  refine ⟨hstrip, ?_⟩
  rw [verify_response_result body client _ herr hres, hstrip]
  by_cases hc : client = []
  · subst hc
    simp
  · rw [if_neg (fun hh => hc hh.symm)]
    constructor
    · intro h
      exact absurd h (by decide)
    · intro h
      exact absurd h hc

/-- Witness for C2 at the short result `0x1234` and the empty client
response. -/
theorem strip_short_result_empty_witness :
    strip_trailing_zeros (stringChars "0x1234") 64 = [] ∧
    (verify_response (stringChars "\"result\":\"0x1234\"") [] = .authorized ↔
      ([] : List Char) = []) :=
  strip_short_result_empty (stringChars "\"result\":\"0x1234\"") []
    (stringChars "0x1234") (by decide) (by decide) (by decide)

/-- C8 (divergence): with the five strings "a" "b" "c" "d" "e", decoding the
CallData of the standalone/fixed `encode_digest_hash_call` does not recover
the strings (the `sprintf` NUL truncates the zero padding of every tail, so
the offset words no longer locate the later tails), while the from_working
variant of the encoder round-trips on the same input. -/
theorem encode_decode_divergence :
    decode_call_data (encode_digest_hash_call_std [97] [98] [99] [100] [101]) ≠
      [[97], [98], [99], [100], [101]] ∧
    decode_call_data (encode_digest_hash_call [97] [98] [99] [100] [101]) =
      [[97], [98], [99], [100], [101]] := by
  constructor
  · decide
  · decide

/-- C9 (divergence): `extract_field` silently truncates a 256-byte field to
255 bytes and reports success, while `extract_auth_components` rejects the
256-byte field with the message naming it and accepts all fields at
length 255. -/
theorem extraction_bound_behavior :
    extract_field
      (stringChars "username=\"" ++ List.replicate 256 'a' ++
        stringChars "\",realm=\"r\",uri=\"u\",nonce=\"n\",response=\"x\"")
      (stringChars "username") 256 = some (List.replicate 255 'a') ∧
    extract_auth_components
      ⟨some (List.replicate 256 97), some (List.replicate 255 98),
        some (List.replicate 255 99), some (List.replicate 255 100),
        some (List.replicate 255 101)⟩ (stringBytes "REGISTER") =
      Except.error (stringChars "Invalid or missing username") ∧
    extract_auth_components
      ⟨some (List.replicate 255 97), some (List.replicate 255 98),
        some (List.replicate 255 99), some (List.replicate 255 100),
        some (List.replicate 255 101)⟩ (stringBytes "REGISTER") =
      Except.ok ⟨List.replicate 255 97, List.replicate 255 98, List.replicate 255 99,
        List.replicate 255 100, List.replicate 255 101, stringBytes "REGISTER"⟩ := by
  refine ⟨rfl, rfl, rfl⟩

/-- C10: whenever the body contains the error key, the decision is taken
before any result extraction — it is the user-not-found rejection exactly
when the fixed marker text occurs, the remote-error rejection otherwise,
never the comparison outcomes; and the user-not-found code is distinct from
the response-mismatch code. -/
theorem error_key_checked_first (body client : List Char)
    (herr : containsSub (stringChars "\"error\"") body = true) :
    (verify_response body client = .userNotFound ∨
      verify_response body client = .remoteError) ∧
    (verify_response body client = .userNotFound ↔
      containsSub (stringChars "User not found") body = true) ∧
    verify_response body client ≠ .authorized ∧
    verify_response body client ≠ .responseMismatch ∧
    AuthOutcome.userNotFound ≠ AuthOutcome.responseMismatch := by
  have hv : verify_response body client =
      if containsSub (stringChars "User not found") body then .userNotFound
      else .remoteError := by
    rw [verify_response, if_pos herr]
  by_cases hu : containsSub (stringChars "User not found") body = true
  · rw [hv, if_pos hu]
    exact ⟨Or.inl rfl, by simp [hu], by decide, by decide, by decide⟩
  · rw [hv, if_neg hu]
    refine ⟨Or.inr rfl, ?_, by decide, by decide, by decide⟩
    constructor
    · intro h
      exact absurd h (by decide)
    · intro h
      exact absurd h hu

/-- Witness for C10 at a body carrying `"error":"User not found"`. -/
theorem error_key_checked_first_witness :
    (verify_response (stringChars "\"error\":\"User not found\"") [] = .userNotFound ∨
      verify_response (stringChars "\"error\":\"User not found\"") [] = .remoteError) ∧
    (verify_response (stringChars "\"error\":\"User not found\"") [] = .userNotFound ↔
      containsSub (stringChars "User not found")
        (stringChars "\"error\":\"User not found\"") = true) ∧
    verify_response (stringChars "\"error\":\"User not found\"") [] ≠ .authorized ∧
    verify_response (stringChars "\"error\":\"User not found\"") [] ≠ .responseMismatch ∧
    AuthOutcome.userNotFound ≠ AuthOutcome.responseMismatch :=
  error_key_checked_first (stringChars "\"error\":\"User not found\"") [] (by decide)

end Web3Auth
